import Mathlib

/-!
Verification of the webhook verification and ordered-dispatch pipeline of the
wingbot-facebook connector (src/Facebook.js), as a shallow embedding.

Pure values are embedded directly; the asynchronous dispatch pipeline
(promise chains built with reduce/then, joined with Promise.all) is embedded
as a timed trace semantics: a promise is a trace of timed processor calls
together with a settle time and a result.  JavaScript truthiness and
template-string coercion of possibly-undefined values are made explicit.
-/

/-- JavaScript truthiness of a possibly-undefined string value:
undefined and the empty string are falsy. -/
def jsTruthy : Option String → Bool
  | none => false
  | some s => if s = "" then false else true

/-- JavaScript template-string coercion of a possibly-undefined value:
undefined prints as "undefined". -/
def jsStr (o : Option String) : String :=
  o.getD "undefined"

/-- JavaScript logical-or on possibly-undefined string values: the left
operand wins when it is truthy, otherwise the right operand is returned. -/
def jsOr (a b : Option String) : Option String :=
  if jsTruthy a then a else b

/-- Error object thrown by the connector; mirrors a JS Error extended with
code and status fields. -/
structure JsError where
  message : String
  code : Option Nat
  status : Option Nat
deriving DecidableEq

/-- Facebook._getUnauthorizedError: an Error with code 401 and status 401. -/
def getUnauthorizedError (msg : String) : JsError :=
  ⟨"Unauthorized: " ++ msg, some 401, some 401⟩

/-- Constructor options of the Facebook class (src/Facebook.js lines 30-49).
Absent options are modelled as none. -/
structure Options where
  pageToken : Option String := none
  appId : Option String := none
  botToken : Option String := none
  appSecret : Option String := none
  passThreadAction : Option String := none
  takeThreadAction : Option String := none
  requestThreadAction : Option String := none
deriving DecidableEq

/-- Sender object of a messaging event; its id may be absent. -/
structure Sender where
  id : Option String := none
deriving DecidableEq

/-- Payload of a thread-control event (take/pass/request thread control). -/
structure ThreadControl where
  previous_owner_app_id : Option String := none
  metadata : Option String := none
deriving DecidableEq

/-- One messaging event of the envelope.  Each recognized kind key is an
optional field; presence of the field is what classification inspects. -/
structure Message where
  postback : Option String := none
  referral : Option String := none
  optin : Option String := none
  pass_thread_control : Option ThreadControl := none
  message : Option String := none
  request_thread_control : Option ThreadControl := none
  take_thread_control : Option ThreadControl := none
  read : Option String := none
  delivery : Option String := none
  sender : Option Sender := none
  timestamp : Option Nat := none
deriving DecidableEq

/-- Payload stored under one of the recognized kind keys. -/
inductive FieldVal
  | str (s : String)
  | tc (t : ThreadControl)
deriving DecidableEq

/-- Dynamic field access message[e] restricted to the recognized kind keys. -/
def getField (m : Message) : String → Option FieldVal
  | "postback" => m.postback.map FieldVal.str
  | "referral" => m.referral.map FieldVal.str
  | "optin" => m.optin.map FieldVal.str
  | "pass_thread_control" => m.pass_thread_control.map FieldVal.tc
  | "message" => m.message.map FieldVal.str
  | "request_thread_control" => m.request_thread_control.map FieldVal.tc
  | "take_thread_control" => m.take_thread_control.map FieldVal.tc
  | "read" => m.read.map FieldVal.str
  | "delivery" => m.delivery.map FieldVal.str
  | _ => none

/-- The PROCESS_EVENTS list of recognized kind keys (src/Facebook.js 10-20). -/
def PROCESS_EVENTS : List String :=
  ["postback", "referral", "optin", "pass_thread_control", "message",
   "request_thread_control", "take_thread_control", "read", "delivery"]

/-- PROCESS_EVENTS.some(e => typeof message[e] !== 'undefined'). -/
def isProcessEvent (m : Message) : Bool :=
  PROCESS_EVENTS.any (fun e => (getField m e).isSome)

/-- (message.sender && message.sender.id) || null: the sender identity used
as grouping key, null when the sender or its id is absent or falsy. -/
def senderKey (m : Message) : Option String :=
  match m.sender with
  | none => none
  | some s =>
    match s.id with
    | none => none
    | some i => if i = "" then none else some i

/-- One queued item: a messaging event paired with the page id of its entry. -/
structure QueueItem where
  message : Message
  pageId : String
deriving DecidableEq

/-- One entry of the envelope: a page id and its messaging events. -/
structure Entry where
  id : String
  messaging : List Message
deriving DecidableEq

/-- The webhook envelope body. -/
structure Body where
  object : String
  entry : List Entry
deriving DecidableEq

/-- All (message, pageId) items of a list of entries, in arrival order. -/
def allItems : List Entry → List QueueItem
  | [] => []
  | e :: rest => e.messaging.map (fun m => QueueItem.mk m e.id) ++ allItems rest

/-- Insertion into the eventsBySenderId map: append to the bucket of the
given key, creating the bucket at the end when the key is new (JS Map
preserves insertion order). -/
def pushBucket : List (Option String × List QueueItem) → Option String → QueueItem →
    List (Option String × List QueueItem)
  | [], k, it => [(k, [it])]
  | (k2, l) :: rest, k, it =>
    if k2 = k then (k2, l ++ [it]) :: rest
    else (k2, l) :: pushBucket rest k it

/-- One step of the classification loop (src/Facebook.js 204-217): a
processable event is appended to the bucket of its sender key, any other
event is appended to otherEvents. -/
def groupStep (st : List (Option String × List QueueItem) × List QueueItem)
    (it : QueueItem) : List (Option String × List QueueItem) × List QueueItem :=
  if isProcessEvent it.message then
    (pushBucket st.1 (senderKey it.message) it, st.2)
  else
    (st.1, st.2 ++ [it])

/-- The grouping phase of processEvent (src/Facebook.js 199-218): walk the
entries and their messaging events in order, classifying each. -/
def groupEvents (body : Body) : List (Option String × List QueueItem) × List QueueItem :=
  body.entry.foldl
    (fun st e => (e.messaging.map (fun m => QueueItem.mk m e.id)).foldl groupStep st)
    ([], [])

/-- Flattened contents of the sender buckets, in bucket order. -/
def contents : List (Option String × List QueueItem) → List QueueItem
  | [] => []
  | g :: rest => g.2 ++ contents rest

/-- Modelled from the spec: the external wingbot Request.postBack factory is
not part of this repository; per the spec it synthesizes a postback event
carrying the given sender, action, payload (data) and timestamp. -/
structure PostBack where
  senderId : Option String
  action : String
  data : ThreadControl
  timestamp : Option Nat
deriving DecidableEq

/-- An event handed to the processor: either the original messaging event or
a postback synthesized from a thread-control event. -/
inductive WEvent
  | orig (m : Message)
  | postBack (p : PostBack)
deriving DecidableEq

/-- The thread-control transformation of processMessage
(src/Facebook.js 133-181): the take branch is checked first, then pass, then
request; none yields a discarded event, otherwise the original event or a
synthesized postback is forwarded. -/
def transformMessage (opts : Options) (senderId : Option String) (m : Message) :
    Option WEvent :=
  match m.take_thread_control with
  | some tc =>
    if jsTruthy opts.takeThreadAction = true ∧
        jsStr tc.previous_owner_app_id ≠ jsStr opts.appId then
      some (WEvent.postBack ⟨senderId, (opts.takeThreadAction).getD "", tc, m.timestamp⟩)
    else none
  | none =>
    match m.pass_thread_control with
    | some pc =>
      if jsTruthy opts.passThreadAction = true then
        some (WEvent.postBack ⟨senderId, (opts.passThreadAction).getD "", pc, m.timestamp⟩)
      else none
    | none =>
      match m.request_thread_control with
      | some rc =>
        if jsTruthy opts.requestThreadAction = true then
          some (WEvent.postBack ⟨senderId, (opts.requestThreadAction).getD "", rc, m.timestamp⟩)
        else none
      | none => some (WEvent.orig m)

/-- One timed call to the downstream processor. -/
structure TimedCall where
  event : WEvent
  senderId : Option String
  pageId : String
  start : Nat
  finish : Nat
deriving DecidableEq

/-- Status record resolved by processMessage. -/
structure Status where
  status : Nat
deriving DecidableEq

/-- The downstream processor: given the sender identity (via the constructed
message sender), the normalized event and the page id, it either resolves
with a status or rejects. -/
def Processor : Type := Option String → WEvent → String → Except String Status

/-- Duration model for a processor call: how long the call takes to settle. -/
def Duration : Type := Option String → WEvent → String → Nat

/-- Modelled from the spec: a JavaScript promise in the single-threaded
cooperative scheduling model, reduced to its observable behavior here: the
trace of timed processor calls it performs, the time at which it settles,
and its result. -/
structure PromT (α : Type) where
  trace : List TimedCall
  settle : Nat
  result : Except String α

/-- Modelled from the spec: promise.then(f) in the timed model; when the
promise resolves, f runs starting at the settle time; when it rejects, f is
skipped and the rejection propagates. -/
def thenP {α β : Type} (p : PromT α) (f : Nat → PromT β) : PromT β :=
  match p.result with
  | Except.ok _ =>
    let q := f p.settle
    ⟨p.trace ++ q.trace, q.settle, q.result⟩
  | Except.error e => ⟨p.trace, p.settle, Except.error e⟩

/-- Drop the resolution value of a promise, keeping its observable behavior. -/
def forgetP {α : Type} (p : PromT α) : PromT Unit :=
  ⟨p.trace, p.settle, p.result.map (fun _ => ())⟩

/-- processMessage (src/Facebook.js 122-184) in the timed model, started at
time t: a discarded thread-control event resolves immediately with status
201 and no processor call; otherwise the processor is called once with the
transformed event, taking its modelled duration. -/
def processMessage (proc : Processor) (dur : Duration) (opts : Options)
    (m : Message) (senderId : Option String) (pageId : String) (t : Nat) :
    PromT Status :=
  match transformMessage opts senderId m with
  | none => ⟨[], t, Except.ok ⟨201⟩⟩
  | some ev =>
    let d := dur senderId ev pageId
    ⟨[⟨ev, senderId, pageId, t, t + d⟩], t + d, proc senderId ev pageId⟩

/-- One step of the reduce chain of _processEventsOfSender
(src/Facebook.js 107-113): promise.then(() => processMessage(...)). -/
def chainStep (proc : Processor) (dur : Duration) (opts : Options)
    (sid : Option String) (p : PromT Unit) (it : QueueItem) : PromT Unit :=
  thenP p (fun t => forgetP (processMessage proc dur opts it.message sid it.pageId t))

/-- _processEventsOfSender: the events of one sender are chained with
reduce/then starting from Promise.resolve(), which is settled at time 0. -/
def processEventsOfSender (proc : Processor) (dur : Duration) (opts : Options)
    (sid : Option String) (events : List QueueItem) : PromT Unit :=
  events.foldl (chainStep proc dur opts sid) ⟨[], 0, Except.ok ()⟩

/-- The sequence of events a sender chain hands to the processor, in
envelope order: discarded events are skipped, and the chain stops after the
first event whose processor call rejects. -/
def plannedDispatches (proc : Processor) (opts : Options) (sid : Option String) :
    List QueueItem → List WEvent
  | [] => []
  | it :: rest =>
    match transformMessage opts sid it.message with
    | none => plannedDispatches proc opts sid rest
    | some ev =>
      match proc sid ev it.pageId with
      | Except.ok _ => ev :: plannedDispatches proc opts sid rest
      | Except.error _ => [ev]

/-- Concatenated traces of a list of promises: every promise keeps running
to completion, so every trace is retained. -/
def tracesOf : List (PromT Unit) → List TimedCall
  | [] => []
  | p :: rest => p.trace ++ tracesOf rest

/-- Latest settle time among a list of promises (0 for the empty list). -/
def maxSettle : List (PromT Unit) → Nat
  | [] => 0
  | p :: rest => max p.settle (maxSettle rest)

/-- Earliest rejection among a list of promises: its settle time and reason;
on equal times the promise earlier in the list wins. -/
def firstRejection : List (PromT Unit) → Option (Nat × String)
  | [] => none
  | p :: rest =>
    match p.result with
    | Except.ok _ => firstRejection rest
    | Except.error e =>
      match firstRejection rest with
      | none => some (p.settle, e)
      | some (t, e2) => if p.settle ≤ t then some (p.settle, e) else some (t, e2)

/-- Modelled from the spec: JavaScript Promise.all in the timed model; it
resolves once every promise has resolved, and rejects with the earliest
rejection at the moment that rejection occurs, while the remaining promises
keep running (their traces are retained). -/
def promiseAll (ps : List (PromT Unit)) : PromT Unit :=
  match firstRejection ps with
  | none => ⟨tracesOf ps, maxSettle ps, Except.ok ()⟩
  | some (t, e) => ⟨tracesOf ps, t, Except.error e⟩

/-- The per-sender chains created by processEvent (src/Facebook.js 220-221). -/
def chainsOf (proc : Processor) (dur : Duration) (opts : Options) (body : Body) :
    List (PromT Unit) :=
  (groupEvents body).1.map (fun g => processEventsOfSender proc dur opts g.1 g.2)

/-- processEvent (src/Facebook.js 192-226) in the timed model: a non-page
envelope short-circuits to an empty pass-through list with no dispatch;
otherwise events are grouped by sender, all sender chains run concurrently
from time 0 and are joined with Promise.all, and otherEvents is returned. -/
def processEvent (proc : Processor) (dur : Duration) (opts : Options)
    (body : Body) : PromT Unit × List QueueItem :=
  if body.object = "page" then
    (promiseAll (chainsOf proc dur opts body), (groupEvents body).2)
  else
    (⟨[], 0, Except.ok ()⟩, [])

/-- Query string of the webhook verification request. -/
structure QueryString where
  hubVerifyToken : Option String := none
  hubChallenge : Option String := none
deriving DecidableEq

/-- verifyWebhook (src/Facebook.js 63-73). -/
def verifyWebhook (opts : Options) (q : QueryString) : Except JsError (Option String) :=
  if jsTruthy opts.botToken = false then
    Except.error (getUnauthorizedError "Missing configuration (config.botToken)")
  else if jsTruthy q.hubVerifyToken = false then
    Except.error (getUnauthorizedError "Missing hub.verify_token in query")
  else if q.hubVerifyToken = opts.botToken then
    Except.ok q.hubChallenge
  else
    Except.error (getUnauthorizedError "Wrong hub.verify_token (config.botToken)")

/-- Exact-key lookup in the header map (JS object property access is
case-sensitive). -/
def lookupHeader (headers : List (String × String)) (k : String) : Option String :=
  (headers.find? (fun p => p.1 = k)).map (fun p => p.2)

/-- The signature header value consulted by verifyRequest
(src/Facebook.js 88): the lower-case spelling, or else the X-Hub-Signature
spelling. -/
def sigOf (headers : List (String × String)) : Option String :=
  jsOr (lookupHeader headers "x-hub-signature") (lookupHeader headers "X-Hub-Signature")

/-- Split of a character list at every occurrence of the separator, the
semantics of the JS string split method with a one-character separator. -/
def splitOnChar (sep : Char) : List Char → List String
  | [] => [""]
  | c :: rest =>
    match splitOnChar sep rest with
    | [] => [""]
    | hd :: tl =>
      if c = sep then "" :: hd :: tl
      else (String.mk [c] ++ hd) :: tl

/-- signature.split of the equals sign (src/Facebook.js 94). -/
def jsSplitEq (s : String) : List String :=
  splitOnChar (Char.ofNat 61) s.data

/-- verifyRequest (src/Facebook.js 83-105), parameterized by the HMAC-SHA1
hex-digest function (crypto is external to the repository): with no app
secret it resolves trivially; otherwise the digest portion of the signature
header (after splitting on the equals sign) must equal the digest of the raw
body under the secret. -/
def verifyRequest (hmac : String → List Nat → String) (opts : Options)
    (body : List Nat) (headers : List (String × String)) : Except JsError Unit :=
  if jsTruthy opts.appSecret = false then Except.ok ()
  else
    if jsTruthy (sigOf headers) = false then
      Except.error (getUnauthorizedError "Missing X-Hub-Signature")
    else
      let signatureHash := (jsSplitEq ((sigOf headers).getD ""))[1]?
      let expectedHash := hmac ((opts.appSecret).getD "") body
      if signatureHash = some expectedHash then Except.ok ()
      else Except.error (getUnauthorizedError "Could not validate the request signature.")

/-- Concrete HMAC stand-in used for witnesses: key followed by the bytes. -/
def hmEx : String → List Nat → String :=
  fun k b => k ++ (b.map Nat.repr).foldl (fun a s => a ++ "," ++ s) ""

/-- Options with only an app secret configured. -/
def optsSecret : Options := { appSecret := some "secret" }

/-- Options with only a bot token configured. -/
def optsBot : Options := { botToken := some "tok" }

/-- Options with an app id and all three thread actions configured. -/
def optsActions : Options :=
  { appId := some "42", passThreadAction := some "passed",
    takeThreadAction := some "taken", requestThreadAction := some "requested" }

/-- Processor used in witnesses: rejects every call for sender A. -/
def procEx : Processor :=
  fun sid _ _ => if sid = some "A" then Except.error "boom" else Except.ok ⟨200⟩

/-- Duration model used in witnesses: sender A settles fast, others slowly. -/
def durEx : Duration :=
  fun sid _ _ => if sid = some "A" then 1 else 5

/-- A plain text message from sender A. -/
def msgA : Message := { message := some "hi", sender := some ⟨some "A"⟩ }

/-- A plain text message from sender B. -/
def msgB : Message := { message := some "yo", sender := some ⟨some "B"⟩ }

/-- A second text message from sender A. -/
def msgA2 : Message := { message := some "again", sender := some ⟨some "A"⟩ }

/-- An unrecognized event (no recognized kind key) from sender A. -/
def msgOther : Message := { sender := some ⟨some "A"⟩ }

/-- A take_thread_control event from sender A with a foreign previous owner. -/
def msgTake : Message :=
  { take_thread_control := some ⟨some "7", some "meta"⟩,
    sender := some ⟨some "A"⟩, timestamp := some 123 }

/-- A pass_thread_control event from sender A. -/
def msgPass : Message :=
  { pass_thread_control := some ⟨none, some "pm"⟩,
    sender := some ⟨some "A"⟩, timestamp := some 5 }

/-- A page envelope with one entry carrying events of senders A and B. -/
def bodyEx : Body :=
  { object := "page", entry := [⟨"p1", [msgA, msgB, msgOther, msgA2]⟩] }

/-- An envelope whose object discriminator is not page. -/
def bodyUser : Body :=
  { object := "user", entry := [⟨"p1", [msgA]⟩] }

/-- Characterization of verifyRequest as nested conditionals. -/
theorem verifyRequest_eq (hmac : String → List Nat → String) (opts : Options)
    (body : List Nat) (headers : List (String × String)) :
    verifyRequest hmac opts body headers =
      if jsTruthy opts.appSecret = false then Except.ok ()
      else if jsTruthy (sigOf headers) = false then
        Except.error (getUnauthorizedError "Missing X-Hub-Signature")
      else if (jsSplitEq ((sigOf headers).getD ""))[1]?
          = some (hmac ((opts.appSecret).getD "") body) then Except.ok ()
      else Except.error (getUnauthorizedError "Could not validate the request signature.") :=
  rfl

/-- C6: verifyWebhook throws an Unauthorized error with code 401 when the
bot token is unset, when the query carries no verify token, or when the
supplied token differs from the configured one; when the configured token is
set and the supplied token matches it exactly, the challenge value of the
query is returned unchanged. -/
theorem verifyWebhook_challenge (opts : Options) (q : QueryString) :
    (jsTruthy opts.botToken = false ∨ jsTruthy q.hubVerifyToken = false ∨
        q.hubVerifyToken ≠ opts.botToken →
      ∃ e, verifyWebhook opts q = Except.error e ∧ e.code = some 401)
  ∧ (jsTruthy opts.botToken = true → q.hubVerifyToken = opts.botToken →
      verifyWebhook opts q = Except.ok q.hubChallenge) := by
  constructor
  · intro h
    by_cases h1 : jsTruthy opts.botToken = false
    · exact ⟨getUnauthorizedError "Missing configuration (config.botToken)",
        by simp [verifyWebhook, h1], rfl⟩
    · by_cases h2 : jsTruthy q.hubVerifyToken = false
      · exact ⟨getUnauthorizedError "Missing hub.verify_token in query",
          by simp [verifyWebhook, h1, h2], rfl⟩
      · have h3 : q.hubVerifyToken ≠ opts.botToken := by
          rcases h with h | h | h
          · exact absurd h h1
          · exact absurd h h2
          · exact h
        exact ⟨getUnauthorizedError "Wrong hub.verify_token (config.botToken)",
          by simp [verifyWebhook, h1, h2, h3], rfl⟩
  · intro hb he
    have h1 : ¬ jsTruthy opts.botToken = false := by simp [hb]
    have h2 : ¬ jsTruthy q.hubVerifyToken = false := by rw [he]; simp [hb]
    simp [verifyWebhook, h1, h2, he]

/-- Witness for C6 at a concrete matching token. -/
theorem verifyWebhook_challenge_witness :
    verifyWebhook optsBot ⟨some "tok", some "chal"⟩ = Except.ok (some "chal") :=
  (verifyWebhook_challenge optsBot ⟨some "tok", some "chal"⟩).2 rfl rfl

/-- C4: verifyRequest succeeds exactly when the app secret is unset, or the
signature header is present (and truthy) and its digest portion after
splitting on the equals sign equals the HMAC-SHA1 hex digest of the raw body
under the secret; every failure is an Unauthorized error with code 401; a
missing signature header with a set secret is Unauthorized; and a body whose
digest differs flips success to Unauthorized. -/
theorem verifyRequest_signature (hmac : String → List Nat → String) (opts : Options)
    (body : List Nat) (headers : List (String × String)) :
    (verifyRequest hmac opts body headers = Except.ok () ↔
      (jsTruthy opts.appSecret = false ∨
        (jsTruthy (sigOf headers) = true ∧
          (jsSplitEq ((sigOf headers).getD ""))[1]?
            = some (hmac ((opts.appSecret).getD "") body))))
  ∧ (∀ e, verifyRequest hmac opts body headers = Except.error e → e.code = some 401)
  ∧ (jsTruthy opts.appSecret = true → jsTruthy (sigOf headers) = false →
      verifyRequest hmac opts body headers
        = Except.error (getUnauthorizedError "Missing X-Hub-Signature"))
  ∧ (∀ body2,
      hmac ((opts.appSecret).getD "") body2 ≠ hmac ((opts.appSecret).getD "") body →
      verifyRequest hmac opts body headers = Except.ok () →
      jsTruthy opts.appSecret = true →
      ∃ e, verifyRequest hmac opts body2 headers = Except.error e ∧ e.code = some 401) := by
  by_cases h1 : jsTruthy opts.appSecret = false
  · refine ⟨by simp [verifyRequest, h1], ?_, ?_, ?_⟩
    · intro e he
      simp [verifyRequest, h1] at he
    · intro htr
      rw [htr] at h1
      exact absurd h1 (by decide)
    · intro body2 _ _ htr
      rw [htr] at h1
      exact absurd h1 (by decide)
  · by_cases h2 : jsTruthy (sigOf headers) = false
    · have hko : verifyRequest hmac opts body headers
          = Except.error (getUnauthorizedError "Missing X-Hub-Signature") := by
        simp [verifyRequest, h1, h2]
      refine ⟨?_, ?_, ?_, ?_⟩
      · rw [hko]
        simp [h1, h2]
      · intro e he
        rw [hko] at he
        injection he with he2
        rw [← he2]
        rfl
      · intro _ _
        exact hko
      · intro body2 _ hok _
        rw [hko] at hok
        exact absurd hok (by simp)
    · have h2t : jsTruthy (sigOf headers) = true := by
        cases h : jsTruthy (sigOf headers)
        · exact absurd h h2
        · rfl
      by_cases h3 : (jsSplitEq ((sigOf headers).getD ""))[1]?
          = some (hmac ((opts.appSecret).getD "") body)
      · have hko : verifyRequest hmac opts body headers = Except.ok () := by
          simp [verifyRequest, h1, h2, h3]
        refine ⟨?_, ?_, ?_, ?_⟩
        · rw [hko]
          simp [h2t, h3]
        · intro e he
          rw [hko] at he
          exact absurd he (by simp)
        · intro _ hcontra
          rw [hcontra] at h2
          exact absurd rfl h2
        · intro body2 hne _ _
          have h4 : ¬ (jsSplitEq ((sigOf headers).getD ""))[1]?
              = some (hmac ((opts.appSecret).getD "") body2) := by
            rw [h3]
            intro hc
            injection hc with hc2
            exact hne hc2.symm
          exact ⟨getUnauthorizedError "Could not validate the request signature.",
            by simp [verifyRequest, h1, h2, h4], rfl⟩
      · have hko : verifyRequest hmac opts body headers
            = Except.error (getUnauthorizedError "Could not validate the request signature.") := by
          simp [verifyRequest, h1, h2, h3]
        refine ⟨?_, ?_, ?_, ?_⟩
        · rw [hko]
          simp [h1, h3]
        · intro e he
          rw [hko] at he
          injection he with he2
          rw [← he2]
          rfl
        · intro _ hcontra
          rw [hcontra] at h2
          exact absurd rfl h2
        · intro body2 _ hok _
          rw [hko] at hok
          exact absurd hok (by simp)

/-- Witness for C4: a matching digest succeeds, and an unset secret succeeds. -/
theorem verifyRequest_signature_witness :
    verifyRequest hmEx optsSecret [1, 2]
        [("x-hub-signature", "sha1=" ++ hmEx "secret" [1, 2])] = Except.ok ()
  ∧ verifyRequest hmEx ⟨none, none, none, none, none, none, none⟩ [1, 2] [] = Except.ok () :=
  ⟨(verifyRequest_signature hmEx optsSecret [1, 2]
      [("x-hub-signature", "sha1=" ++ hmEx "secret" [1, 2])]).1.mpr
        (Or.inr ⟨by decide, by decide⟩),
   (verifyRequest_signature hmEx ⟨none, none, none, none, none, none, none⟩ [1, 2] []).1.mpr
        (Or.inl rfl)⟩

/-- C9 counterexample: a header map carrying the signature header only under
the all-caps casing X-HUB-SIGNATURE, with a digest that would validate, is
treated as having no signature header at all, while the same value under the
lower-case spelling is read and validates; so the lookup is not
case-insensitive. -/
theorem verifyRequest_caseSensitive_cex :
    verifyRequest hmEx optsSecret [1, 2]
        [("X-HUB-SIGNATURE", "sha1=" ++ hmEx "secret" [1, 2])]
      = Except.error (getUnauthorizedError "Missing X-Hub-Signature")
  ∧ verifyRequest hmEx optsSecret [1, 2]
        [("x-hub-signature", "sha1=" ++ hmEx "secret" [1, 2])]
      = Except.ok () :=
  ⟨rfl, rfl⟩

/-- C9 amended: the signature header is looked up under exactly the two
spellings x-hub-signature and X-Hub-Signature (the lower-case one winning
when truthy); a header map containing the header under no other spelling
than these is treated as missing the signature, and the verification result
depends on the header map only through the values at these two keys. -/
theorem verifyRequest_headerSpellings (hmac : String → List Nat → String)
    (opts : Options) (body : List Nat) (headers : List (String × String)) :
    ((∀ p ∈ headers, p.1 ≠ "x-hub-signature" ∧ p.1 ≠ "X-Hub-Signature") →
      jsTruthy opts.appSecret = true →
      verifyRequest hmac opts body headers
        = Except.error (getUnauthorizedError "Missing X-Hub-Signature"))
  ∧ (∀ headers2,
      lookupHeader headers "x-hub-signature" = lookupHeader headers2 "x-hub-signature" →
      lookupHeader headers "X-Hub-Signature" = lookupHeader headers2 "X-Hub-Signature" →
      verifyRequest hmac opts body headers = verifyRequest hmac opts body headers2) := by
  constructor
  · intro hnone htr
    have hlow : lookupHeader headers "x-hub-signature" = none := by
      unfold lookupHeader
      rw [List.find?_eq_none.mpr]
      · rfl
      · intro p hp
        simp [(hnone p hp).1]
    have hup : lookupHeader headers "X-Hub-Signature" = none := by
      unfold lookupHeader
      rw [List.find?_eq_none.mpr]
      · rfl
      · intro p hp
        simp [(hnone p hp).2]
    have hsig : sigOf headers = none := by
      unfold sigOf
      rw [hlow, hup]
      rfl
    have h1 : ¬ jsTruthy opts.appSecret = false := by simp [htr]
    have h2 : jsTruthy (sigOf headers) = false := by rw [hsig]; rfl
    simp [verifyRequest, h1, h2]
  · intro headers2 hlow hup
    have hsig : sigOf headers = sigOf headers2 := by
      unfold sigOf
      rw [hlow, hup]
    unfold verifyRequest
    rw [hsig]

/-- Witness for C9 amended: a header map with unrelated keys only. -/
theorem verifyRequest_headerSpellings_witness :
    verifyRequest hmEx optsSecret [1, 2] [("Content-Type", "x")]
      = Except.error (getUnauthorizedError "Missing X-Hub-Signature") :=
  (verifyRequest_headerSpellings hmEx optsSecret [1, 2] [("Content-Type", "x")]).1
    (by decide) rfl

/-- C7: an envelope whose object discriminator is not page yields an empty
pass-through list, an empty dispatch trace with zero processor calls, and a
resolved (non-throwing) promise. -/
theorem processEvent_nonPage (proc : Processor) (dur : Duration) (opts : Options)
    (body : Body) (h : body.object ≠ "page") :
    processEvent proc dur opts body = (⟨[], 0, Except.ok ()⟩, []) := by
  simp [processEvent, h]

/-- Witness for C7 at a concrete non-page envelope. -/
theorem processEvent_nonPage_witness :
    processEvent procEx durEx optsActions bodyUser = (⟨[], 0, Except.ok ()⟩, []) :=
  processEvent_nonPage procEx durEx optsActions bodyUser (by decide)

/-- A chain step on an already-rejected promise is skipped. -/
theorem chainStep_of_error (proc : Processor) (dur : Duration) (opts : Options)
    (sid : Option String) (p : PromT Unit) (it : QueueItem) (e : String)
    (h : p.result = Except.error e) : chainStep proc dur opts sid p it = p := by
  cases p with
  | mk tr s r => simp at h; simp [chainStep, thenP, h]

/-- A whole chain suffix on an already-rejected promise is skipped. -/
theorem foldl_chainStep_error (proc : Processor) (dur : Duration) (opts : Options)
    (sid : Option String) (l : List QueueItem) :
    ∀ (p : PromT Unit) (e : String), p.result = Except.error e →
      List.foldl (chainStep proc dur opts sid) p l = p := by
  induction l with
  | nil => intro p e _; rfl
  | cons it rest ih =>
    intro p e h
    rw [List.foldl_cons, chainStep_of_error proc dur opts sid p it e h]
    exact ih p e h

/-- A chain step on a discarded event leaves the promise unchanged. -/
theorem chainStep_discard (proc : Processor) (dur : Duration) (opts : Options)
    (sid : Option String) (p : PromT Unit) (it : QueueItem)
    (h : transformMessage opts sid it.message = none) :
    chainStep proc dur opts sid p it = p := by
  cases p with
  | mk tr s r =>
    cases r with
    | ok u =>
      cases u
      simp [chainStep, thenP, processMessage, forgetP, Except.map, h]
    | error e => simp [chainStep, thenP]

/-- Computation of a chain step that dispatches an event to the processor. -/
theorem chainStep_dispatch (proc : Processor) (dur : Duration) (opts : Options)
    (sid : Option String) (tr : List TimedCall) (s : Nat)
    (it : QueueItem) (ev : WEvent)
    (h : transformMessage opts sid it.message = some ev) :
    chainStep proc dur opts sid ⟨tr, s, Except.ok ()⟩ it =
      ⟨tr ++ [⟨ev, sid, it.pageId, s, s + dur sid ev it.pageId⟩],
       s + dur sid ev it.pageId,
       (proc sid ev it.pageId).map (fun _ => ())⟩ := by
  simp [chainStep, thenP, processMessage, forgetP, h]

/-- C5: a take_thread_control event whose previous owner equals the
configured app id is fully discarded, even with a take-thread action
configured: no processor call, an immediately resolved status, and the event
is classified processable, so it is grouped rather than passed through; with
a different previous owner and a configured take-thread action, exactly one
postback event synthesized from that action, the original sender, the
original take_thread_control payload and the original timestamp is
dispatched. -/
theorem processMessage_takeThreadControl (proc : Processor) (dur : Duration)
    (opts : Options) (m : Message) (tc : ThreadControl) (sid : Option String)
    (pid : String) (t : Nat) (htc : m.take_thread_control = some tc) :
    (jsStr tc.previous_owner_app_id = jsStr opts.appId →
      transformMessage opts sid m = none ∧
      processMessage proc dur opts m sid pid t = ⟨[], t, Except.ok ⟨201⟩⟩ ∧
      isProcessEvent m = true)
  ∧ (∀ a, opts.takeThreadAction = some a → a ≠ "" →
      jsStr tc.previous_owner_app_id ≠ jsStr opts.appId →
      transformMessage opts sid m
          = some (WEvent.postBack ⟨sid, a, tc, m.timestamp⟩) ∧
      (processMessage proc dur opts m sid pid t).trace.map (fun c => c.event)
          = [WEvent.postBack ⟨sid, a, tc, m.timestamp⟩]) := by
  constructor
  · intro heq
    have htr : transformMessage opts sid m = none := by
      simp [transformMessage, htc, heq]
    refine ⟨htr, ?_, ?_⟩
    · simp [processMessage, htr]
    · simp [isProcessEvent, PROCESS_EVENTS, getField, htc]
  · intro a ha hane howner
    have htr : transformMessage opts sid m
        = some (WEvent.postBack ⟨sid, a, tc, m.timestamp⟩) := by
      simp [transformMessage, htc, howner, ha, jsTruthy, hane]
    refine ⟨htr, ?_⟩
    simp [processMessage, htr]

/-- Witness for C5: a take_thread_control from a foreign owner with a
configured take action synthesizes the expected postback. -/
theorem processMessage_takeThreadControl_witness :
    transformMessage optsActions (some "A") msgTake
      = some (WEvent.postBack ⟨some "A", "taken", ⟨some "7", some "meta"⟩, some 123⟩) :=
  ((processMessage_takeThreadControl procEx durEx optsActions msgTake
      ⟨some "7", some "meta"⟩ (some "A") "p1" 0 rfl).2 "taken" rfl
      (by decide) (by decide)).1

/-- C8: a pass_thread_control (or request_thread_control) event processed
without the corresponding action configured is consumed entirely: the
transformation discards it, processMessage resolves with status 201 without
any processor call, and the event is classified processable, so it is never
in the pass-through list; the discard is not an error. -/
theorem processMessage_unconfiguredThreadControl (proc : Processor) (dur : Duration)
    (opts : Options) (m : Message) (sid : Option String) (pid : String) (t : Nat)
    (h : (m.take_thread_control = none ∧ m.pass_thread_control.isSome = true ∧
            jsTruthy opts.passThreadAction = false)
       ∨ (m.take_thread_control = none ∧ m.pass_thread_control = none ∧
            m.request_thread_control.isSome = true ∧
            jsTruthy opts.requestThreadAction = false)) :
    transformMessage opts sid m = none
  ∧ processMessage proc dur opts m sid pid t = ⟨[], t, Except.ok ⟨201⟩⟩
  ∧ isProcessEvent m = true := by
  rcases h with ⟨h1, h2, h3⟩ | ⟨h1, h2, h3, h4⟩
  · obtain ⟨pc, hpc⟩ := Option.isSome_iff_exists.mp h2
    have htr : transformMessage opts sid m = none := by
      simp [transformMessage, h1, hpc, h3]
    exact ⟨htr, by simp [processMessage, htr],
      by simp [isProcessEvent, PROCESS_EVENTS, getField, hpc]⟩
  · obtain ⟨rc, hrc⟩ := Option.isSome_iff_exists.mp h3
    have htr : transformMessage opts sid m = none := by
      simp [transformMessage, h1, h2, hrc, h4]
    exact ⟨htr, by simp [processMessage, htr],
      by simp [isProcessEvent, PROCESS_EVENTS, getField, hrc]⟩

/-- Witness for C8: an unconfigured pass_thread_control event is discarded. -/
theorem processMessage_unconfiguredThreadControl_witness :
    transformMessage optsSecret (some "A") msgPass = none
  ∧ processMessage procEx durEx optsSecret msgPass (some "A") "p1" 3
      = ⟨[], 3, Except.ok ⟨201⟩⟩ :=
  ⟨(processMessage_unconfiguredThreadControl procEx durEx optsSecret msgPass
      (some "A") "p1" 3 (Or.inl ⟨rfl, rfl, rfl⟩)).1,
   (processMessage_unconfiguredThreadControl procEx durEx optsSecret msgPass
      (some "A") "p1" 3 (Or.inl ⟨rfl, rfl, rfl⟩)).2.1⟩

/-- C10: a thread-control event discarded by the transformation rules makes
processMessage resolve with status 201 without any processor call, and in a
per-sender chain it behaves exactly like a successfully processed event:
the chain over the queue with the discarded event equals the chain over the
queue without it, so subsequent events of the sender are still dispatched. -/
theorem processMessage_discardChain (proc : Processor) (dur : Duration)
    (opts : Options) (sid : Option String) (pre post : List QueueItem)
    (it : QueueItem) (h : transformMessage opts sid it.message = none) :
    (∀ pid t, processMessage proc dur opts it.message sid pid t
        = ⟨[], t, Except.ok ⟨201⟩⟩)
  ∧ processEventsOfSender proc dur opts sid (pre ++ it :: post)
      = processEventsOfSender proc dur opts sid (pre ++ post) := by
  constructor
  · intro pid t
    simp [processMessage, h]
  · unfold processEventsOfSender
    rw [List.foldl_append, List.foldl_append, List.foldl_cons,
      chainStep_discard proc dur opts sid _ it h]

/-- Witness for C10: a discarded pass_thread_control between two messages of
the same sender does not interrupt the chain. -/
theorem processMessage_discardChain_witness :
    processEventsOfSender procEx durEx optsSecret (some "A")
        ([⟨msgA, "p1"⟩] ++ ⟨msgPass, "p1"⟩ :: [⟨msgA2, "p1"⟩])
      = processEventsOfSender procEx durEx optsSecret (some "A")
        ([⟨msgA, "p1"⟩] ++ [⟨msgA2, "p1"⟩]) :=
  (processMessage_discardChain procEx durEx optsSecret (some "A")
      [⟨msgA, "p1"⟩] [⟨msgA2, "p1"⟩] ⟨msgPass, "p1"⟩ rfl).2

/-- Inserting an item into a bucket permutes the flattened contents by
appending the item. -/
theorem contents_pushBucket (gs : List (Option String × List QueueItem))
    (k : Option String) (it : QueueItem) :
    List.Perm (contents (pushBucket gs k it)) (contents gs ++ [it]) := by
  induction gs with
  | nil => simp [pushBucket, contents]
  | cons g rest ih =>
    obtain ⟨k2, l⟩ := g
    by_cases hk : k2 = k
    · simp only [pushBucket, if_pos hk, contents]
      rw [List.append_assoc, List.append_assoc]
      exact List.Perm.append_left l List.perm_append_comm
    · simp only [pushBucket, if_neg hk, contents]
      rw [List.append_assoc]
      exact List.Perm.append_left l ih

/-- The classification fold consumes each incoming item into exactly one of
the bucket contents or the pass-through list. -/
theorem groupStep_foldl_perm (its : List QueueItem) :
    ∀ st : List (Option String × List QueueItem) × List QueueItem,
      List.Perm
        (contents (its.foldl groupStep st).1 ++ (its.foldl groupStep st).2)
        ((contents st.1 ++ st.2) ++ its) := by
  induction its with
  | nil => intro st; simp
  | cons it rest ih =>
    intro st
    rw [List.foldl_cons]
    have hstep : List.Perm (contents (groupStep st it).1 ++ (groupStep st it).2)
        ((contents st.1 ++ st.2) ++ [it]) := by
      by_cases hp : isProcessEvent it.message = true
      · simp only [groupStep, if_pos hp]
        refine (List.Perm.append_right st.2
          (contents_pushBucket st.1 (senderKey it.message) it)).trans ?_
        rw [List.append_assoc, List.append_assoc]
        exact List.Perm.append_left _ List.perm_append_comm
      · simp only [groupStep, if_neg hp]
        rw [List.append_assoc]
    refine (ih (groupStep st it)).trans ?_
    have hassoc : ((contents st.1 ++ st.2) ++ [it]) ++ rest
        = (contents st.1 ++ st.2) ++ (it :: rest) := by
      rw [List.append_assoc]
      rfl
    rw [← hassoc]
    exact List.Perm.append_right rest hstep

/-- The nested entry/messaging walk of groupEvents equals one flat fold over
all items of the envelope. -/
theorem groupEvents_eq_foldl (body : Body) :
    groupEvents body = (allItems body.entry).foldl groupStep ([], []) := by
  suffices h : ∀ (entries : List Entry)
      (st : List (Option String × List QueueItem) × List QueueItem),
      entries.foldl
        (fun st e => (e.messaging.map (fun m => QueueItem.mk m e.id)).foldl groupStep st) st
        = (allItems entries).foldl groupStep st by
    exact h body.entry ([], [])
  intro entries
  induction entries with
  | nil => intro st; rfl
  | cons e rest ih =>
    intro st
    rw [List.foldl_cons]
    simp only [allItems]
    rw [List.foldl_append]
    exact ih _

/-- Bucket insertion preserves the bucket invariant: every stored item is
processable and keyed by its own sender identity. -/
theorem pushBucket_mem (k : Option String) (it : QueueItem)
    (hit : isProcessEvent it.message = true) (hk : senderKey it.message = k) :
    ∀ (gs : List (Option String × List QueueItem)),
      (∀ g ∈ gs, ∀ x ∈ g.2, isProcessEvent x.message = true ∧ senderKey x.message = g.1) →
      ∀ g ∈ pushBucket gs k it, ∀ x ∈ g.2,
        isProcessEvent x.message = true ∧ senderKey x.message = g.1 := by
  intro gs
  induction gs with
  | nil =>
    intro _ g hg x hx
    simp only [pushBucket, List.mem_singleton] at hg
    subst hg
    simp only [List.mem_singleton] at hx
    subst hx
    exact ⟨hit, hk⟩
  | cons g0 rest ih =>
    obtain ⟨k2, l⟩ := g0
    intro hgs g hg x hx
    by_cases hkk : k2 = k
    · simp only [pushBucket, if_pos hkk] at hg
      rcases List.mem_cons.mp hg with hg1 | hg2
      · subst hg1
        rcases List.mem_append.mp hx with hx1 | hx2
        · exact hgs (k2, l) (List.mem_cons_self _ _) x hx1
        · simp only [List.mem_singleton] at hx2
          subst hx2
          refine ⟨hit, ?_⟩
          rw [hk, hkk]
      · exact hgs g (List.mem_cons_of_mem _ hg2) x hx
    · simp only [pushBucket, if_neg hkk] at hg
      rcases List.mem_cons.mp hg with hg1 | hg2
      · subst hg1
        exact hgs (k2, l) (List.mem_cons_self _ _) x hx
      · exact ih (fun g2 hg2b => hgs g2 (List.mem_cons_of_mem _ hg2b)) g hg2 x hx

/-- The classification fold preserves both categorization invariants: bucket
items are processable and keyed by their sender, pass-through items are not
processable. -/
theorem groupStep_foldl_mem (its : List QueueItem) :
    ∀ st : List (Option String × List QueueItem) × List QueueItem,
      (∀ g ∈ st.1, ∀ x ∈ g.2, isProcessEvent x.message = true ∧ senderKey x.message = g.1) →
      (∀ x ∈ st.2, isProcessEvent x.message = false) →
      (∀ g ∈ (its.foldl groupStep st).1, ∀ x ∈ g.2,
          isProcessEvent x.message = true ∧ senderKey x.message = g.1)
      ∧ (∀ x ∈ (its.foldl groupStep st).2, isProcessEvent x.message = false) := by
  induction its with
  | nil => intro st h1 h2; exact ⟨h1, h2⟩
  | cons it rest ih =>
    intro st h1 h2
    rw [List.foldl_cons]
    by_cases hp : isProcessEvent it.message = true
    · refine ih (groupStep st it) ?_ ?_
      · simp only [groupStep, if_pos hp]
        exact pushBucket_mem _ it hp rfl st.1 h1
      · simp only [groupStep, if_pos hp]
        exact h2
    · have hp2 : isProcessEvent it.message = false := by
        cases hh : isProcessEvent it.message
        · rfl
        · exact absurd hh hp
      refine ih (groupStep st it) ?_ ?_
      · simp only [groupStep, if_neg hp]
        exact h1
      · simp only [groupStep, if_neg hp]
        intro x hx
        rcases List.mem_append.mp hx with hx1 | hx2
        · exact h2 x hx1
        · simp only [List.mem_singleton] at hx2
          subst hx2
          exact hp2

/-- Bucket insertion preserves the order invariant: every bucket is an
in-order sublist of the consumed input extended by the new item. -/
theorem pushBucket_sublist (k : Option String) (it : QueueItem) :
    ∀ (gs : List (Option String × List QueueItem)) (L : List QueueItem),
      (∀ g ∈ gs, List.Sublist g.2 L) →
      ∀ g ∈ pushBucket gs k it, List.Sublist g.2 (L ++ [it]) := by
  intro gs
  induction gs with
  | nil =>
    intro L _ g hg
    simp only [pushBucket, List.mem_singleton] at hg
    subst hg
    exact List.sublist_append_right L [it]
  | cons g0 rest ih =>
    obtain ⟨k2, l⟩ := g0
    intro L hgs g hg
    by_cases hkk : k2 = k
    · simp only [pushBucket, if_pos hkk] at hg
      rcases List.mem_cons.mp hg with hg1 | hg2
      · subst hg1
        exact List.Sublist.append (hgs (k2, l) (List.mem_cons_self _ _))
          (List.Sublist.refl [it])
      · exact (hgs g (List.mem_cons_of_mem _ hg2)).trans (List.sublist_append_left L [it])
    · simp only [pushBucket, if_neg hkk] at hg
      rcases List.mem_cons.mp hg with hg1 | hg2
      · subst hg1
        exact (hgs (k2, l) (List.mem_cons_self _ _)).trans (List.sublist_append_left L [it])
      · exact ih L (fun g2 hg2b => hgs g2 (List.mem_cons_of_mem _ hg2b)) g hg2

/-- The classification fold keeps every bucket an in-order sublist of the
already-consumed items. -/
theorem groupStep_foldl_sublist (its : List QueueItem) :
    ∀ (st : List (Option String × List QueueItem) × List QueueItem)
      (L : List QueueItem),
      (∀ g ∈ st.1, List.Sublist g.2 L) →
      ∀ g ∈ (its.foldl groupStep st).1, List.Sublist g.2 (L ++ its) := by
  induction its with
  | nil =>
    intro st L h g hg
    rw [List.append_nil]
    exact h g hg
  | cons it rest ih =>
    intro st L h
    rw [List.foldl_cons]
    have hnext : ∀ g ∈ (groupStep st it).1, List.Sublist g.2 (L ++ [it]) := by
      by_cases hp : isProcessEvent it.message = true
      · intro g hg
        simp only [groupStep, if_pos hp] at hg
        exact pushBucket_sublist (senderKey it.message) it st.1 L h g hg
      · intro g hg
        simp only [groupStep, if_neg hp] at hg
        exact (h g hg).trans (List.sublist_append_left L [it])
    have hrec := ih (groupStep st it) (L ++ [it]) hnext
    rw [List.append_assoc, List.singleton_append] at hrec
    exact hrec

/-- C1: for a page envelope, the grouping phase of processEvent partitions
the envelope events: the flattened sender queues together with the returned
pass-through list are a permutation of all envelope events with no
duplication or loss; every queued event is processable and sits in the queue
of its own sender identity (null when absent); every pass-through event is
not processable; each queue preserves envelope order; and processEvent
returns exactly the pass-through list while dispatching exactly the grouped
queues. -/
theorem processEvent_partition (proc : Processor) (dur : Duration) (opts : Options)
    (body : Body) (h : body.object = "page") :
    List.Perm (contents (groupEvents body).1 ++ (groupEvents body).2)
      (allItems body.entry)
  ∧ (∀ g ∈ (groupEvents body).1, ∀ x ∈ g.2,
      isProcessEvent x.message = true ∧ senderKey x.message = g.1)
  ∧ (∀ x ∈ (groupEvents body).2, isProcessEvent x.message = false)
  ∧ (∀ g ∈ (groupEvents body).1, List.Sublist g.2 (allItems body.entry))
  ∧ (processEvent proc dur opts body).2 = (groupEvents body).2
  ∧ (processEvent proc dur opts body).1 = promiseAll (chainsOf proc dur opts body) := by
  have hb := groupEvents_eq_foldl body
  refine ⟨?_, ?_, ?_, ?_, ?_, ?_⟩
  · rw [hb]
    have hp := groupStep_foldl_perm (allItems body.entry) ([], [])
    simpa [contents] using hp
  · rw [hb]
    exact (groupStep_foldl_mem (allItems body.entry) ([], []) (by simp) (by simp)).1
  · rw [hb]
    exact (groupStep_foldl_mem (allItems body.entry) ([], []) (by simp) (by simp)).2
  · rw [hb]
    have hs := groupStep_foldl_sublist (allItems body.entry) ([], []) [] (by simp)
    simpa using hs
  · simp [processEvent, h]
  · simp [processEvent, h]

/-- Witness for C1 at a concrete envelope with two senders and one
pass-through event. -/
theorem processEvent_partition_witness :
    List.Perm (contents (groupEvents bodyEx).1 ++ (groupEvents bodyEx).2)
      (allItems bodyEx.entry) :=
  (processEvent_partition procEx durEx optsActions bodyEx rfl).1

/-- The per-sender chain preserves sequentiality: the trace stays ordered
(each call finishes before the next starts), every call starts no later than
it finishes, and every call finishes by the settle time. -/
theorem chain_seq (proc : Processor) (dur : Duration) (opts : Options)
    (sid : Option String) :
    ∀ (events : List QueueItem) (p : PromT Unit),
      List.Chain' (fun a b => a.finish ≤ b.start) p.trace →
      (∀ c ∈ p.trace, c.start ≤ c.finish ∧ c.finish ≤ p.settle) →
      List.Chain' (fun a b => a.finish ≤ b.start)
        (events.foldl (chainStep proc dur opts sid) p).trace
      ∧ ∀ c ∈ (events.foldl (chainStep proc dur opts sid) p).trace,
          c.start ≤ c.finish ∧
          c.finish ≤ (events.foldl (chainStep proc dur opts sid) p).settle := by
  intro events
  induction events with
  | nil => intro p h1 h2; exact ⟨h1, h2⟩
  | cons it rest ih =>
    intro p h1 h2
    rw [List.foldl_cons]
    cases p with
    | mk tr s r =>
    cases r with
    | error e =>
      rw [chainStep_of_error proc dur opts sid ⟨tr, s, Except.error e⟩ it e rfl]
      exact ih _ h1 h2
    | ok u =>
      cases u
      cases htr : transformMessage opts sid it.message with
      | none =>
        rw [chainStep_discard proc dur opts sid _ it htr]
        exact ih _ h1 h2
      | some ev =>
        rw [chainStep_dispatch proc dur opts sid tr s it ev htr]
        apply ih
        · rw [List.chain'_append]
          refine ⟨h1, List.chain'_singleton _, ?_⟩
          intro x hx y hy
          simp only [List.head?_cons, Option.mem_def, Option.some.injEq] at hy
          subst hy
          obtain ⟨hne, hxeq⟩ := List.mem_getLast?_eq_getLast hx
          subst hxeq
          exact (h2 _ (List.getLast_mem hne)).2
        · intro c hc
          rcases List.mem_append.mp hc with hc1 | hc2
          · exact ⟨(h2 c hc1).1, (h2 c hc1).2.trans (Nat.le_add_right s _)⟩
          · simp only [List.mem_singleton] at hc2
            subst hc2
            exact ⟨Nat.le_add_right s _, Nat.le.refl⟩

/-- The events of the chain trace, in order, are exactly the planned
dispatches of the queue: the transformed events in envelope order, cut off
after the first rejected call. -/
theorem chain_trace_map (proc : Processor) (dur : Duration) (opts : Options)
    (sid : Option String) :
    ∀ (events : List QueueItem) (p : PromT Unit), p.result = Except.ok () →
      (events.foldl (chainStep proc dur opts sid) p).trace.map (fun c => c.event)
        = p.trace.map (fun c => c.event) ++ plannedDispatches proc opts sid events := by
  intro events
  induction events with
  | nil => intro p _; simp [plannedDispatches]
  | cons it rest ih =>
    intro p hp
    rw [List.foldl_cons]
    cases p with
    | mk tr s r =>
    have hr : r = Except.ok () := hp
    subst hr
    cases htr : transformMessage opts sid it.message with
    | none =>
      rw [chainStep_discard proc dur opts sid _ it htr]
      rw [ih _ rfl]
      simp [plannedDispatches, htr]
    | some ev =>
      rw [chainStep_dispatch proc dur opts sid tr s it ev htr]
      cases hproc : proc sid ev it.pageId with
      | ok st =>
        rw [ih _ rfl]
        simp [plannedDispatches, htr, hproc]
      | error e =>
        rw [foldl_chainStep_error proc dur opts sid rest _ e rfl]
        simp [plannedDispatches, htr, hproc]

/-- The planned dispatches are a sublist of the transformed queue events in
their envelope order. -/
theorem plannedDispatches_sublist (proc : Processor) (opts : Options)
    (sid : Option String) :
    ∀ events : List QueueItem,
      List.Sublist (plannedDispatches proc opts sid events)
        (events.filterMap (fun it => transformMessage opts sid it.message)) := by
  intro events
  induction events with
  | nil => simp [plannedDispatches]
  | cons it rest ih =>
    cases htr : transformMessage opts sid it.message with
    | none =>
      simpa [plannedDispatches, htr, List.filterMap_cons] using ih
    | some ev =>
      cases hproc : proc sid ev it.pageId with
      | ok st =>
        simp only [plannedDispatches, htr, hproc, List.filterMap_cons]
        exact ih.cons₂ ev
      | error e =>
        simp only [plannedDispatches, htr, hproc, List.filterMap_cons]
        exact (List.nil_sublist _).cons₂ ev

/-- C2: for every processor, duration model, options and sender queue, the
per-sender chain dispatches strictly sequentially: consecutive calls in the
trace never overlap (each finishes before the next starts, whatever the
durations are), every call finishes by the chain settle time, and the
dispatched events are exactly the transformed queue events in their
envelope relative order, cut off at the first failure. -/
theorem processEventsOfSender_sequential (proc : Processor) (dur : Duration)
    (opts : Options) (sid : Option String) (events : List QueueItem) :
    List.Chain' (fun a b => a.finish ≤ b.start)
      (processEventsOfSender proc dur opts sid events).trace
  ∧ (∀ c ∈ (processEventsOfSender proc dur opts sid events).trace,
      c.start ≤ c.finish ∧
      c.finish ≤ (processEventsOfSender proc dur opts sid events).settle)
  ∧ (processEventsOfSender proc dur opts sid events).trace.map (fun c => c.event)
      = plannedDispatches proc opts sid events
  ∧ List.Sublist (plannedDispatches proc opts sid events)
      (events.filterMap (fun it => transformMessage opts sid it.message)) := by
  have hseq := chain_seq proc dur opts sid events ⟨[], 0, Except.ok ()⟩
    (by simp) (by simp)
  have hmap := chain_trace_map proc dur opts sid events ⟨[], 0, Except.ok ()⟩ rfl
  exact ⟨hseq.1, hseq.2, by simpa using hmap,
    plannedDispatches_sublist proc opts sid events⟩

/-- Witness for C2 at a concrete two-event queue of one sender. -/
theorem processEventsOfSender_sequential_witness :
    (processEventsOfSender procEx durEx optsActions (some "B")
        [⟨msgB, "p1"⟩, ⟨msgB, "p2"⟩]).trace.map (fun c => c.event)
      = plannedDispatches procEx optsActions (some "B") [⟨msgB, "p1"⟩, ⟨msgB, "p2"⟩] :=
  (processEventsOfSender_sequential procEx durEx optsActions (some "B")
    [⟨msgB, "p1"⟩, ⟨msgB, "p2"⟩]).2.2.1

/-- When no promise of the list rejects, none of them carries an error. -/
theorem firstRejection_none :
    ∀ ps : List (PromT Unit), firstRejection ps = none →
      ∀ p ∈ ps, ∀ e, p.result ≠ Except.error e := by
  intro ps
  induction ps with
  | nil =>
    intro _ p hp
    simp at hp
  | cons p rest ih =>
    intro h q hq e
    cases hr : p.result with
    | ok u =>
      simp only [firstRejection, hr] at h
      rcases List.mem_cons.mp hq with hq1 | hq2
      · subst hq1
        rw [hr]
        intro hc
        cases hc
      · exact ih h q hq2 e
    | error ep =>
      simp only [firstRejection, hr] at h
      cases hfr : firstRejection rest with
      | none =>
        rw [hfr] at h
        have h2 : some (p.settle, ep) = (none : Option (Nat × String)) := h
        cases h2
      | some te =>
        obtain ⟨t2, e2⟩ := te
        rw [hfr] at h
        have h2 : (if p.settle ≤ t2 then some (p.settle, ep) else some (t2, e2))
            = (none : Option (Nat × String)) := h
        by_cases hle : p.settle ≤ t2
        · rw [if_pos hle] at h2
          cases h2
        · rw [if_neg hle] at h2
          cases h2

/-- The earliest rejection really is one of the promises, and it settles no
later than any rejected promise of the list. -/
theorem firstRejection_some :
    ∀ (ps : List (PromT Unit)) (t : Nat) (e : String),
      firstRejection ps = some (t, e) →
      (∃ p ∈ ps, p.result = Except.error e ∧ p.settle = t)
      ∧ (∀ p ∈ ps, ∀ e2, p.result = Except.error e2 → t ≤ p.settle) := by
  intro ps
  induction ps with
  | nil =>
    intro t e h
    cases h
  | cons p rest ih =>
    intro t e h
    cases hr : p.result with
    | ok u =>
      simp only [firstRejection, hr] at h
      obtain ⟨hex, hall⟩ := ih t e h
      constructor
      · obtain ⟨q, hq, hqe⟩ := hex
        exact ⟨q, List.mem_cons_of_mem _ hq, hqe⟩
      · intro q hq e2 hq2
        rcases List.mem_cons.mp hq with hq1 | hq3
        · subst hq1
          rw [hr] at hq2
          cases hq2
        · exact hall q hq3 e2 hq2
    | error ep =>
      simp only [firstRejection, hr] at h
      cases hfr : firstRejection rest with
      | none =>
        rw [hfr] at h
        have h2 : some (p.settle, ep) = some (t, e) := h
        simp only [Option.some.injEq, Prod.mk.injEq] at h2
        obtain ⟨ht, he⟩ := h2
        constructor
        · refine ⟨p, List.mem_cons_self _ _, ?_, ht⟩
          rw [hr, he]
        · intro q hq e2 hq2
          rcases List.mem_cons.mp hq with hq1 | hq3
          · subst hq1
            rw [← ht]
          · exact absurd hq2 (firstRejection_none rest hfr q hq3 e2)
      | some te2 =>
        obtain ⟨t2, e2x⟩ := te2
        rw [hfr] at h
        have h2 : (if p.settle ≤ t2 then some (p.settle, ep) else some (t2, e2x))
            = some (t, e) := h
        by_cases hle : p.settle ≤ t2
        · rw [if_pos hle] at h2
          simp only [Option.some.injEq, Prod.mk.injEq] at h2
          obtain ⟨ht, he⟩ := h2
          constructor
          · refine ⟨p, List.mem_cons_self _ _, ?_, ht⟩
            rw [hr, he]
          · intro q hq e3 hq3
            rcases List.mem_cons.mp hq with hq1 | hq4
            · subst hq1
              rw [← ht]
            · have hall2 := (ih t2 e2x hfr).2 q hq4 e3 hq3
              calc t = p.settle := ht.symm
                _ ≤ t2 := hle
                _ ≤ q.settle := hall2
        · rw [if_neg hle] at h2
          simp only [Option.some.injEq, Prod.mk.injEq] at h2
          obtain ⟨ht, he⟩ := h2
          have hfr2 : firstRejection rest = some (t, e) := by
            rw [hfr, ht, he]
          obtain ⟨hex, hall⟩ := ih t e hfr2
          constructor
          · obtain ⟨q, hq, hqe⟩ := hex
            exact ⟨q, List.mem_cons_of_mem _ hq, hqe⟩
          · intro q hq e3 hq3
            rcases List.mem_cons.mp hq with hq1 | hq4
            · subst hq1
              rw [← ht]
              exact Nat.le_of_lt (Nat.lt_of_not_le hle)
            · exact hall q hq4 e3 hq3

/-- C3 amended: a processor failure aborts only the failing sender's own
remaining queue (the chain over the queue extended past the failing event
equals the chain cut at that event); a sender chain is unaffected by how the
processor or the durations behave for other senders; and for a page
envelope the overall call keeps every chain's full trace, resolves at the
latest settle time when every chain resolves, and otherwise rejects with the
earliest failure exactly when that failing chain settles, which is no later
than any other failing chain but possibly before other chains settle. -/
theorem processEvent_failureIsolation (proc : Processor) (dur : Duration)
    (opts : Options) :
    (∀ (sid : Option String) (pre : List QueueItem) (it : QueueItem)
        (post : List QueueItem) (e : String),
      (processEventsOfSender proc dur opts sid (pre ++ [it])).result = Except.error e →
      processEventsOfSender proc dur opts sid (pre ++ it :: post)
        = processEventsOfSender proc dur opts sid (pre ++ [it]))
  ∧ (∀ (proc2 : Processor) (dur2 : Duration) (sid : Option String)
        (events : List QueueItem),
      (∀ ev pid, proc sid ev pid = proc2 sid ev pid) →
      (∀ ev pid, dur sid ev pid = dur2 sid ev pid) →
      processEventsOfSender proc dur opts sid events
        = processEventsOfSender proc2 dur2 opts sid events)
  ∧ (∀ body : Body, body.object = "page" →
      (processEvent proc dur opts body).1.trace
          = tracesOf (chainsOf proc dur opts body)
      ∧ (firstRejection (chainsOf proc dur opts body) = none →
          (processEvent proc dur opts body).1.result = Except.ok ()
          ∧ (processEvent proc dur opts body).1.settle
              = maxSettle (chainsOf proc dur opts body))
      ∧ (∀ t e, firstRejection (chainsOf proc dur opts body) = some (t, e) →
          (processEvent proc dur opts body).1.result = Except.error e
          ∧ (processEvent proc dur opts body).1.settle = t
          ∧ (∃ p ∈ chainsOf proc dur opts body,
              p.result = Except.error e ∧ p.settle = t)
          ∧ (∀ p ∈ chainsOf proc dur opts body, ∀ e2,
              p.result = Except.error e2 → t ≤ p.settle))) := by
  refine ⟨?_, ?_, ?_⟩
  · intro sid pre it post e h
    have heq : pre ++ it :: post = (pre ++ [it]) ++ post := by simp
    rw [heq]
    unfold processEventsOfSender
    rw [List.foldl_append]
    exact foldl_chainStep_error proc dur opts sid post _ e h
  · intro proc2 dur2 sid events hp hd
    have hstep : ∀ (p : PromT Unit) (it : QueueItem),
        chainStep proc dur opts sid p it = chainStep proc2 dur2 opts sid p it := by
      intro p it
      unfold chainStep
      refine congrArg (thenP p) (funext fun t => ?_)
      unfold processMessage
      cases htr : transformMessage opts sid it.message with
      | none => rfl
      | some ev =>
        show forgetP ⟨[⟨ev, sid, it.pageId, t, t + dur sid ev it.pageId⟩],
            t + dur sid ev it.pageId, proc sid ev it.pageId⟩
          = forgetP ⟨[⟨ev, sid, it.pageId, t, t + dur2 sid ev it.pageId⟩],
            t + dur2 sid ev it.pageId, proc2 sid ev it.pageId⟩
        rw [hp ev it.pageId, hd ev it.pageId]
    unfold processEventsOfSender
    suffices hgen : ∀ (l : List QueueItem) (p : PromT Unit),
        l.foldl (chainStep proc dur opts sid) p
          = l.foldl (chainStep proc2 dur2 opts sid) p by
      exact hgen events _
    intro l
    induction l with
    | nil => intro p; rfl
    | cons it rest ihl =>
      intro p
      rw [List.foldl_cons, List.foldl_cons, hstep p it]
      exact ihl _
  · intro body h
    have hpe : (processEvent proc dur opts body).1
        = promiseAll (chainsOf proc dur opts body) := by
      simp [processEvent, h]
    refine ⟨?_, ?_, ?_⟩
    · rw [hpe]
      unfold promiseAll
      cases hfr : firstRejection (chainsOf proc dur opts body) with
      | none => rfl
      | some te =>
        obtain ⟨t, e⟩ := te
        rfl
    · intro hfr
      rw [hpe]
      unfold promiseAll
      rw [hfr]
      exact ⟨rfl, rfl⟩
    · intro t e hfr
      rw [hpe]
      unfold promiseAll
      rw [hfr]
      obtain ⟨hex, hall⟩ :=
        firstRejection_some (chainsOf proc dur opts body) t e hfr
      exact ⟨rfl, rfl, hex, hall⟩

/-- C3 counterexample: with sender A failing fast (settling at time 1) and
sender B succeeding slowly (settling at time 5) in one envelope, the overall
call rejects with the failure at time 1, strictly before all sender queues
have settled at time 5 — so the aggregate is not reported only after all
queues settle. -/
theorem processEvent_reportsFirstFailure_cex :
    (processEvent procEx durEx optsActions bodyEx).1.result = Except.error "boom"
  ∧ (processEvent procEx durEx optsActions bodyEx).1.settle = 1
  ∧ maxSettle (chainsOf procEx durEx optsActions bodyEx) = 5
  ∧ (processEvent procEx durEx optsActions bodyEx).1.settle
      < maxSettle (chainsOf procEx durEx optsActions bodyEx) := by
  refine ⟨rfl, rfl, rfl, ?_⟩
  show 1 < 5
  decide

/-- Witness for C3 amended: sender A's queue is truncated right after its
failing first event. -/
theorem processEvent_failureIsolation_witness :
    processEventsOfSender procEx durEx optsActions (some "A")
        ([] ++ ⟨msgA, "p1"⟩ :: [⟨msgA2, "p1"⟩])
      = processEventsOfSender procEx durEx optsActions (some "A") ([] ++ [⟨msgA, "p1"⟩]) :=
  (processEvent_failureIsolation procEx durEx optsActions).1
    (some "A") [] ⟨msgA, "p1"⟩ [⟨msgA2, "p1"⟩] "boom" rfl
